import Mathlib

/-!
Verification of the Chaptr RAG pipeline (backend/app/services/chunking.py,
backend/app/services/rag.py, backend/app/routers/books.py) against its
specification.  All Python loops are embedded as structurally recursive Lean
functions; the while-loop of chunk_text, which need not terminate, is driven
by explicit fuel.  Machine floats appear only in the token-count fallback
int(words * 1.33), embedded as exact truncation words * 133 / 100 (for all
realistic word counts the binary64 product has the same floor).
-/

namespace Chaptr

/-! ### String helpers (Python str.split / str.strip / str.lower / str.join) -/

/-- Python str.split() with no argument: split on whitespace runs, dropping
empty pieces.  Auxiliary scanner over the character list; the current word is
accumulated in reverse. -/
def splitWSAux : List Char → List Char → List (List Char)
  | [], run => if run = [] then [] else [run.reverse]
  | c :: rest, run =>
    if c.isWhitespace then
      if run = [] then splitWSAux rest [] else run.reverse :: splitWSAux rest []
    else splitWSAux rest (c :: run)

/-- Python str.split(): the list of whitespace-separated words of a string. -/
def pyWords (s : String) : List String :=
  (splitWSAux s.toList []).map fun r => String.mk r

/-- Python str.strip(): drop leading and trailing whitespace. -/
def pyStrip (s : String) : String :=
  String.mk (((s.toList.dropWhile Char.isWhitespace).reverse.dropWhile
    Char.isWhitespace).reverse)

/-- Python str.lower() (ASCII; the source only feeds it English text). -/
def pyLower (s : String) : String :=
  String.mk (s.toList.map Char.toLower)

/-- Python ' '.join(parts), at the character level. -/
def joinSpChars : List (List Char) → List Char
  | [] => []
  | [s] => s
  | s :: t :: rest => s ++ (' ' :: joinSpChars (t :: rest))

/-- Python ' '.join(parts). -/
def joinSp (l : List String) : String :=
  String.mk (joinSpChars (l.map String.toList))

/-- Split a character list at newline characters (Python str.split('\n')). -/
def splitNLAux : List Char → List Char → List (List Char)
  | [], acc => [acc.reverse]
  | c :: rest, acc =>
    if c = '\n' then acc.reverse :: splitNLAux rest []
    else splitNLAux rest (c :: acc)

/-- Digits to a natural number (Python int() on a \d+ match). -/
def digitsToNat (ds : List Char) : Nat :=
  ds.foldl (fun n c => n * 10 + (c.toNat - 48)) 0

/-! ### SmartChunker configuration (chunking.py, SmartChunker.__init__) -/

/-- Configuration and tokenizer handle of SmartChunker.  The tokenizer field
models self.tokenizer: some f when the tiktoken encoding loaded, none when
the except-branch fell back to word counting. -/
structure SmartChunker where
  base_chunk_size : Nat := 600
  max_chunk_size : Nat := 800
  overlap_size : Nat := 100
  tokenizer : Option (String → Nat) := none

/-- SmartChunker.count_tokens.  The fallback int(len(text.split()) * 1.33)
truncates toward zero; in exact arithmetic that is words * 133 / 100. -/
def SmartChunker.count_tokens (ck : SmartChunker) (text : String) : Nat :=
  match ck.tokenizer with
  | some f => f text
  | none => (pyWords text).length * 133 / 100

/-! ### Sentence splitting (SmartChunker.split_into_sentences)

The source splits with re.split((?<=[.!?])\s+(?=[A-Z]), text): separators are
the maximal whitespace runs that are immediately preceded by '.', '!' or '?'
and immediately followed by an ASCII uppercase letter. -/

def isSentencePunct (c : Char) : Bool := c = '.' || c = '!' || c = '?'

/-- Scanner for the sentence-splitting regex.  acc is the current piece in
reverse; pend is the current (still undecided) whitespace run in reverse.
A pending run becomes a separator exactly when the character before it (the
head of acc) is sentence punctuation and the next character is uppercase. -/
def splitSentencesAux : List Char → List Char → List Char → List (List Char)
  | [], acc, pend => [(pend ++ acc).reverse]
  | c :: rest, acc, pend =>
    if c.isWhitespace then splitSentencesAux rest acc (c :: pend)
    else if pend ≠ [] &&
        (match acc with | p :: _ => isSentencePunct p | [] => false) &&
        c.isUpper then
      acc.reverse :: splitSentencesAux rest [c] []
    else splitSentencesAux rest (c :: (pend ++ acc)) []

/-- SmartChunker.split_into_sentences: regex split, then strip each piece and
drop the empty ones. -/
def SmartChunker.split_into_sentences (_ck : SmartChunker) (text : String) :
    List String :=
  ((splitSentencesAux text.toList [] []).map fun cs =>
    pyStrip (String.mk cs)).filter fun s => s ≠ ""

/-! ### Keyword extraction (SmartChunker.extract_keywords) -/

/-- The fixed stop-word set of extract_keywords. -/
def stop_words : List String :=
  ["this", "that", "with", "have", "will", "from", "they", "know",
   "want", "been", "good", "much", "some", "time", "very", "when",
   "come", "here", "just", "like", "long", "make", "many", "over",
   "such", "take", "than", "them", "well", "were", "what"]

/-- A character that re counts as a word character but is not a letter;
such a neighbour defeats the \b boundaries around [A-Za-z]{4,}. -/
def isNonAlphaWordChar (c : Char) : Bool := c.isDigit || c = '_'

/-- re.findall(\b[A-Za-z]{4,}\b, text): the maximal alphabetic runs of
length at least 4 whose neighbouring characters (if any) are not digits or
underscores.  prevBad records whether the character just before the current
run was a digit or underscore; run is the current run in reverse. -/
def findWordsAux : Bool → List Char → List Char → List String
  | prevBad, [], run =>
    if run ≠ [] && !prevBad && decide (4 ≤ run.length) then
      [String.mk run.reverse]
    else []
  | prevBad, c :: rest, run =>
    if c.isAlpha then findWordsAux prevBad rest (c :: run)
    else
      let keep := run ≠ [] && !prevBad && !isNonAlphaWordChar c &&
        decide (4 ≤ run.length)
      let tail := findWordsAux (isNonAlphaWordChar c) rest []
      if keep then String.mk run.reverse :: tail else tail

/-- Insertion-ordered frequency dictionary (Python dict word_freq). -/
def bumpFreq : List (String × Nat) → String → List (String × Nat)
  | [], w => [(w, 1)]
  | (k, n) :: rest, w =>
    if k = w then (k, n + 1) :: rest else (k, n) :: bumpFreq rest w

/-- One iteration of the word_freq loop: count the word when it is not a
stop word and has length greater than 3. -/
def kwStep (m : List (String × Nat)) (w : String) : List (String × Nat) :=
  if !(stop_words.contains w) && decide (3 < w.length) then bumpFreq m w
  else m

/-- The word_freq loop, preserving first-seen key order. -/
def buildFreq (ws : List String) : List (String × Nat) :=
  ws.foldl kwStep []

/-- Frequency lookup (dict access word_freq[x]). -/
def freqOf (m : List (String × Nat)) (w : String) : Nat :=
  match m.find? fun p => p.1 = w with
  | some p => p.2
  | none => 0

/-- Stable insertion for Python sorted(keys, key=freq, reverse=True): x is
placed before the first element with a strictly smaller key, and before
equal keys of later original position (x originally precedes the list). -/
def insertDesc (key : String → Nat) (x : String) : List String → List String
  | [] => [x]
  | y :: ys =>
    if key y ≤ key x then x :: y :: ys else y :: insertDesc key x ys

/-- Python sorted(l, key, reverse=True): stable descending sort. -/
def sortDesc (key : String → Nat) (l : List String) : List String :=
  l.foldr (insertDesc key) []

/-- SmartChunker.extract_keywords: lower-case, find alphabetic tokens, drop
stop words, count frequency, return the top max_keywords by descending
frequency (Python sort stability breaks ties by first-seen order). -/
def SmartChunker.extract_keywords (_ck : SmartChunker) (text : String)
    (max_keywords : Nat) : List String :=
  let words := findWordsAux false (pyLower text).toList []
  let word_freq := buildFreq words
  (sortDesc (freqOf word_freq) (word_freq.map Prod.fst)).take max_keywords

/-! ### Chapter detection (SmartChunker.extract_chapter_info)

Four anchored, case-insensitive patterns are tried on each of the first
three stripped lines, line-major:
  (chapter\s+(\d+)[:\-\s]*(.*)) , ((\d+)\.\s*(.+)) ,
  (part\s+(\d+)[:\-\s]*(.*))    , (section\s+(\d+)[:\-\s]*(.*)).
The numeric group always parses (it is \d+); the title group is stripped and
treated as absent when falsy (empty). -/

/-- Case-insensitive literal prefix match; returns the remaining input. -/
def matchCI : List Char → List Char → Option (List Char)
  | [], cs => some cs
  | _ :: _, [] => none
  | k :: ks, c :: cs => if c.toLower = k then matchCI ks cs else none

/-- One keyword-led heading pattern (?i)^(kw\s+(\d+)[:\-\s]*(.*)). -/
def chapterKeywordMatch (kw : String) (line : String) :
    Option (Option String × Option Nat) :=
  match matchCI kw.toList line.toList with
  | none => none
  | some rest =>
    let ws := rest.takeWhile Char.isWhitespace
    let r1 := rest.dropWhile Char.isWhitespace
    if ws = [] then none
    else
      let ds := r1.takeWhile Char.isDigit
      let r2 := r1.dropWhile Char.isDigit
      if ds = [] then none
      else
        let r3 := r2.dropWhile fun c => c = ':' || c = '-' || c.isWhitespace
        let title := pyStrip (String.mk r3)
        some (if title = "" then none else some title, some (digitsToNat ds))

/-- The numbered-heading pattern (?i)^((\d+)\.\s*(.+)); the input line is
already stripped by the caller, so the final (.+) group never needs the
backtracking case where \s* gives characters back. -/
def numberedHeadingMatch (line : String) :
    Option (Option String × Option Nat) :=
  let cs := line.toList
  let ds := cs.takeWhile Char.isDigit
  let r1 := cs.dropWhile Char.isDigit
  if ds = [] then none
  else
    match r1 with
    | '.' :: r2 =>
      let r3 := r2.dropWhile Char.isWhitespace
      if r3 = [] then none
      else
        let title := pyStrip (String.mk r3)
        some (if title = "" then none else some title, some (digitsToNat ds))
    | _ => none

/-- Try the four chapter patterns, in source order, on one stripped line. -/
def tryChapterPatterns (line : String) : Option (Option String × Option Nat) :=
  (chapterKeywordMatch "chapter" line).orElse fun _ =>
  (numberedHeadingMatch line).orElse fun _ =>
  (chapterKeywordMatch "part" line).orElse fun _ =>
  chapterKeywordMatch "section" line

/-- SmartChunker.extract_chapter_info: inspect the first three lines of the
stripped text and return the first match; (none, none) when nothing matched. -/
def SmartChunker.extract_chapter_info (_ck : SmartChunker) (text : String) :
    Option String × Option Nat :=
  let lines := ((splitNLAux (pyStrip text).toList []).take 3).map fun cs =>
    pyStrip (String.mk cs)
  match lines.findSome? tryChapterPatterns with
  | some r => r
  | none => (none, none)

/-! ### Chunk data (chunking.py dataclasses) -/

/-- ChunkMetadata dataclass. -/
structure ChunkMetadata where
  chunk_index : Nat
  token_count : Nat
  chapter_title : Option String := none
  chapter_number : Option Nat := none
  page_number : Option Nat := none
  start_char : Nat := 0
  end_char : Nat := 0
  keywords : List String := []
deriving DecidableEq

/-- TextChunk dataclass. -/
structure TextChunk where
  content : String
  metadata : ChunkMetadata
deriving DecidableEq

/-! ### Chunk assembly (SmartChunker.create_chunk_with_overlap) -/

/-- The sentence-accumulation loop of create_chunk_with_overlap, walking the
suffix of the sentence list that starts at absolute index i.  cur is the
running token count, endIdx the index of the last sentence added so far
(initially the caller's start_idx).  Stops before a sentence that would push
the running count past max_chunk_size, and right after reaching target. -/
def chunkFromAux (ck : SmartChunker) (target : Nat) :
    List String → Nat → Nat → Nat → List String × Nat
  | [], _i, _cur, endIdx => ([], endIdx)
  | s :: rest, i, cur, endIdx =>
    let st := ck.count_tokens s
    if ck.max_chunk_size < cur + st then ([], endIdx)
    else if target ≤ cur + st then ([s], i)
    else
      let (ss, e) := chunkFromAux ck target rest (i + 1) (cur + st) i
      (s :: ss, e)

/-- The sentence list and end index assembled by create_chunk_with_overlap. -/
def SmartChunker.create_chunk_sentences (ck : SmartChunker)
    (sentences : List String) (start_idx target : Nat) : List String × Nat :=
  chunkFromAux ck target (sentences.drop start_idx) start_idx 0 start_idx

/-- SmartChunker.create_chunk_with_overlap: the space-joined chunk text and
the index of its last sentence. -/
def SmartChunker.create_chunk_with_overlap (ck : SmartChunker)
    (sentences : List String) (start_idx target : Nat) : String × Nat :=
  (joinSp (ck.create_chunk_sentences sentences start_idx target).1,
   (ck.create_chunk_sentences sentences start_idx target).2)

/-! ### Overlap back-walk (SmartChunker.find_overlap_start) -/

/-- The backward walk of find_overlap_start: decrement start while it is
positive and the accumulated overlap token count is still below
overlap_size, adding the token count of the sentence just below start. -/
def fosAux (ck : SmartChunker) (sentences : List String) :
    Nat → Nat → Nat
  | 0, _overlap => 0
  | start + 1, overlap =>
    if overlap < ck.overlap_size then
      fosAux ck sentences start
        (overlap + ck.count_tokens (sentences.getD start ""))
    else start + 1

/-- SmartChunker.find_overlap_start.  The Python guard end_idx <= 0 and the
final max(0, start_idx) clamp are identities over Nat. -/
def SmartChunker.find_overlap_start (ck : SmartChunker)
    (sentences : List String) (end_idx : Nat) : Nat :=
  if end_idx = 0 then 0 else fosAux ck sentences end_idx 0

/-! ### The main chunking loop (SmartChunker.chunk_text)

The Python while-loop has no termination guarantee, so it is embedded with
explicit fuel: the Bool result records whether the loop actually exited
(true) or the fuel ran out while the loop would have continued (false). -/

/-- One-to-one embedding of the while-loop body of chunk_text. -/
def chunkTextLoop (ck : SmartChunker) (sentences : List String) :
    Nat → Nat → Nat → Nat → List TextChunk → List TextChunk × Bool
  | 0, _sentence_idx, _current_pos, _chunk_index, acc => (acc.reverse, false)
  | fuel + 1, sentence_idx, current_pos, chunk_index, acc =>
    if sentences.length ≤ sentence_idx then (acc.reverse, true)
    else
      let step := ck.create_chunk_with_overlap sentences sentence_idx
        ck.base_chunk_size
      let ctext := step.1
      let end_idx := step.2
      if pyStrip ctext = "" then (acc.reverse, true)
      else
        let end_char := current_pos + ctext.length
        let ci := ck.extract_chapter_info ctext
        let md : ChunkMetadata :=
          { chunk_index := chunk_index
            token_count := ck.count_tokens ctext
            chapter_title := ci.1
            chapter_number := ci.2
            start_char := current_pos
            end_char := end_char
            keywords := ck.extract_keywords ctext 10 }
        let next0 := ck.find_overlap_start sentences end_idx + 1
        let next := if end_idx < next0 then end_idx + 1 else next0
        chunkTextLoop ck sentences fuel next end_char (chunk_index + 1)
          ({ content := ctext, metadata := md } :: acc)

/-- SmartChunker.chunk_text: some chunks when the loop exits within fuel
iterations, none when the fuel runs out (the loop diverges past it). -/
def SmartChunker.chunk_text (ck : SmartChunker) (fuel : Nat) (text : String) :
    Option (List TextChunk) :=
  if pyStrip text = "" then some []
  else if ck.split_into_sentences text = [] then some []
  else
    match chunkTextLoop ck (ck.split_into_sentences text) fuel 0 0 0 [] with
    | (cs, true) => some cs
    | (_, false) => none

/-! ### Chapter-aware chunking (SmartChunker.chunk_book_by_chapters) -/

/-- The lookahead of re.split(\n(?=(?i)chapter\s+\d+|part\s+\d+|section\s+\d+)):
does the text ahead start with a heading keyword, whitespace, and a digit? -/
def headingAhead (cs : List Char) : Bool :=
  ["chapter", "part", "section"].any fun kw =>
    match matchCI kw.toList cs with
    | none => false
    | some r =>
      let ws := r.takeWhile Char.isWhitespace
      let r1 := r.dropWhile Char.isWhitespace
      ws ≠ [] && (match r1 with | d :: _ => d.isDigit | [] => false)

/-- Split the book text at newline characters immediately preceding a
recognized heading (the newline separator is consumed by the split). -/
def chapterSplitsAux : List Char → List Char → List (List Char)
  | [], acc => [acc.reverse]
  | c :: rest, acc =>
    if c = '\n' && headingAhead rest then
      acc.reverse :: chapterSplitsAux rest []
    else chapterSplitsAux rest (c :: acc)

/-- Python truthiness of an optional string (None and "" are falsy). -/
def pyTruthyStr : Option String → Bool
  | some s => s ≠ ""
  | none => false

/-- Python truthiness of an optional integer (None and 0 are falsy). -/
def pyTruthyNat : Option Nat → Bool
  | some n => n ≠ 0
  | none => false

/-- The per-chunk metadata rewrite of chunk_book_by_chapters: assign the
global chunk index, fill in the segment chapter title/number when the
chunk's own value is falsy and the segment's is truthy, and rebase the
character offsets by the cumulative position of the segment. -/
def renumberSeg (pos : Nat) (segTitle : Option String) (segNum : Option Nat) :
    List TextChunk → Nat → List TextChunk × Nat
  | [], gidx => ([], gidx)
  | c :: rest, gidx =>
    let md := c.metadata
    let title :=
      if !pyTruthyStr md.chapter_title && pyTruthyStr segTitle then segTitle
      else md.chapter_title
    let num :=
      if !pyTruthyNat md.chapter_number && pyTruthyNat segNum then segNum
      else md.chapter_number
    let c' : TextChunk :=
      { c with metadata :=
          { md with
            chunk_index := gidx
            chapter_title := title
            chapter_number := num
            start_char := md.start_char + pos
            end_char := md.end_char + pos } }
    let (cs', g') := renumberSeg pos segTitle segNum rest (gidx + 1)
    (c' :: cs', g')

/-- The per-segment loop of chunk_book_by_chapters.  A whitespace-only
segment is skipped by continue before the cumulative character position is
advanced (a quirk kept from the source).  Divergence of any segment's
chunk_text propagates as none. -/
def chunkByChaptersAux (ck : SmartChunker) (fuel : Nat) :
    List String → Nat → Nat → Option (List TextChunk)
  | [], _gidx, _pos => some []
  | seg :: rest, gidx, pos =>
    if pyStrip seg = "" then chunkByChaptersAux ck fuel rest gidx pos
    else
      let ci := ck.extract_chapter_info seg
      match ck.chunk_text fuel seg with
      | none => none
      | some cs =>
        let r := renumberSeg pos ci.1 ci.2 cs gidx
        match chunkByChaptersAux ck fuel rest r.2 (pos + seg.length) with
        | none => none
        | some others => some (r.1 ++ others)

/-- SmartChunker.chunk_book_by_chapters: split into chapter segments, chunk
each, renumber globally; fall back to flat chunk_text when no chunks came
out of the segments. -/
def SmartChunker.chunk_book_by_chapters (ck : SmartChunker) (fuel : Nat)
    (text : String) : Option (List TextChunk) :=
  match chunkByChaptersAux ck fuel
      ((chapterSplitsAux text.toList []).map fun cs => String.mk cs) 0 0 with
  | none => none
  | some all => if all = [] then ck.chunk_text fuel text else some all

/-- create_book_chunker: the default configuration used by the RAG service,
with the tokenizer in its fallback state. -/
def create_book_chunker : SmartChunker :=
  { base_chunk_size := 600, max_chunk_size := 800, overlap_size := 100,
    tokenizer := none }

/-! ### Storage rows (models.py, RAG-relevant columns) -/

/-- The RAG-relevant columns of the Book row.  cleaned_text models the Text
column with the empty string standing for SQL NULL (both are falsy where the
code tests it). -/
structure BookRow where
  id : Nat
  cleaned_text : String := ""
  is_embedded : Bool := false
  embedding_model : Option String := none
  chunk_count : Nat := 0
  processing_status : String := "pending"
  processing_error : Option String := none
deriving DecidableEq

/-- The columns of a BookChunk row written by process_book_for_rag. -/
structure ChunkRow where
  book_id : Nat
  content : String
  chunk_index : Nat
  token_count : Nat
  chapter_title : Option String
  chapter_number : Option Nat
  start_char : Nat
  end_char : Nat
  keywords : List String
deriving DecidableEq

/-- Persistent state visible to the pipeline: the book row under the given
book id (none when the id is absent), the persisted BookChunk rows for it
(paired with their storage-assigned ids), the id counter of the chunk table,
and the per-book vector collection entries (chunk id, document text). -/
structure DBState where
  book : Option BookRow
  chunks : List (Nat × ChunkRow) := []
  nextId : Nat := 1
  vectors : List (Nat × String) := []
deriving DecidableEq

/-! ### Collaborator outcomes (rag.py, RAGService.process_book_for_rag)

Database commits can raise and store_chunk_embeddings returns a bool (its
own body catches every exception); the schedule of those outcomes is an
input of the embedding.  persistOutcome covers the chunk-persistence step
(add_all / commit / refresh); on err the chunk rows are not persisted.
statusCommitOutcome covers the final book-status commit,
failureCommitOutcome the commit inside the except-handler (whose own
failure is swallowed by the inner try/except). -/

/-- Outcome of one fallible collaborator step. -/
inductive StepOutcome where
  | ok
  | err (msg : String)
deriving DecidableEq

/-- The collaborator behaviour for one process_book_for_rag run, plus the
embedding service's model_name attribute. -/
structure RAGWorld where
  persistOutcome : StepOutcome := .ok
  embedResult : Bool := true
  statusCommitOutcome : StepOutcome := .ok
  failureCommitOutcome : StepOutcome := .ok
  modelName : String := "Alibaba-NLP/gte-Qwen2-7B-instruct"
deriving DecidableEq

/-- The result dictionary of process_book_for_rag (absent keys are none;
the wall-clock processing_time key is not modelled). -/
structure RAGResult where
  success : Bool
  error : Option String := none
  message : Option String := none
  chunk_count : Option Nat := none
  embedding_model : Option String := none
  total_tokens : Option Nat := none
  chapters_detected : Option Nat := none
deriving DecidableEq

/-- len(set(c.chapter_number for c in chunks if c.chapter_number)): the
number of distinct truthy chapter numbers. -/
def chaptersDetected (chunks : List TextChunk) : Nat :=
  ((chunks.filterMap fun c =>
    match c.metadata.chapter_number with
    | some n => if n ≠ 0 then some n else none
    | none => none).dedup).length

/-- The except-handler of process_book_for_rag: mark the book failed with
the captured message and commit; a failure of that commit is swallowed and
leaves the stored row unchanged. -/
def ragFailPath (world : RAGWorld) (msg : String) (st : DBState) :
    RAGResult × DBState :=
  let st' :=
    match world.failureCommitOutcome with
    | .ok =>
      { st with book := st.book.map fun b =>
          { b with processing_status := "failed",
                   processing_error := some msg } }
    | .err _ => st
  ({ success := false, error := some msg }, st')

/-- The BookChunk row built from one chunk. -/
def chunkRowOf (book_id : Nat) (c : TextChunk) : ChunkRow :=
  { book_id := book_id
    content := c.content
    chunk_index := c.metadata.chunk_index
    token_count := c.metadata.token_count
    chapter_title := c.metadata.chapter_title
    chapter_number := c.metadata.chapter_number
    start_char := c.metadata.start_char
    end_char := c.metadata.end_char
    keywords := c.metadata.keywords }

/-- RAGService.process_book_for_rag.  The chunker argument models the
self.chunker collaborator (its algorithm is embedded separately above);
chunks is its output for the given text.  Storage assigns consecutive ids
to the persisted rows.  Control flow mirrors the source: empty chunk list
short-circuits; a persistence exception goes to the except-handler; a false
return from store_chunk_embeddings returns a failure dict without touching
the book row; otherwise the book is marked embedded and completed. -/
def RAGService.process_book_for_rag (chunker : String → List TextChunk)
    (world : RAGWorld) (book_id : Nat) (text : String) (st : DBState) :
    RAGResult × DBState :=
  let chunks := chunker text
  if chunks = [] then
    ({ success := false, error := some "No chunks generated" }, st)
  else
    match world.persistOutcome with
    | .err m => ragFailPath world m st
    | .ok =>
      let ids := List.range' st.nextId chunks.length
      let st1 : DBState :=
        { st with
          chunks := st.chunks ++ ids.zip (chunks.map (chunkRowOf book_id))
          nextId := st.nextId + chunks.length }
      if world.embedResult = false then
        ({ success := false, error := some "Failed to store embeddings" }, st1)
      else
        let st2 : DBState :=
          { st1 with vectors := st1.vectors ++ ids.zip (chunks.map (·.content)) }
        match world.statusCommitOutcome with
        | .err m => ragFailPath world m st2
        | .ok =>
          let st3 : DBState :=
            { st2 with book := st2.book.map fun b =>
                { b with
                  is_embedded := true
                  embedding_model := some world.modelName
                  chunk_count := chunks.length
                  processing_status := "completed" } }
          ({ success := true
             chunk_count := some chunks.length
             embedding_model := some world.modelName
             total_tokens := some (chunks.map (·.metadata.token_count)).sum
             chapters_detected := some (chaptersDetected chunks) }, st3)

/-! ### Router endpoint (routers/books.py, POST /{book_id}/rag-process) -/

/-- The response of the rag-process endpoint. -/
inductive RouterResult where
  | httpError (code : Nat) (detail : String)
  | payload (r : RAGResult)
deriving DecidableEq

/-- The process_book_for_rag endpoint handler: 404 when the book row is
absent, 400 when cleaned_text is falsy, an idempotent short-circuit payload
with the stored chunk count and embedding model when the book is already
embedded, otherwise delegate to the service. -/
def routerProcessBookForRag (chunker : String → List TextChunk)
    (world : RAGWorld) (book_id : Nat) (st : DBState) :
    RouterResult × DBState :=
  match st.book with
  | none => (.httpError 404 "Book not found", st)
  | some b =>
    if b.cleaned_text = "" then
      (.httpError 400
        "Book must be processed (text extracted) before RAG processing", st)
    else if b.is_embedded then
      (.payload
        { success := true
          message := some "Book already processed for RAG"
          chunk_count := some b.chunk_count
          embedding_model := b.embedding_model }, st)
    else
      let r := RAGService.process_book_for_rag chunker world book_id
        b.cleaned_text st
      (.payload r.1, r.2)

/-! ### Content search (rag.py, RAGService.search_book_content) -/

/-- RAGService.search_book_content.  The search argument models the
embedding service collaborator search_similar_chunks(book_id, query, top_k,
filter_metadata), generic in its result row type; the chapter metadata
filter is built only when chapter_filter is truthy (Python: None and 0 are
both falsy), mirroring the if chapter_filter test. -/
def RAGService.search_book_content {α : Type}
    (search : Nat → String → Nat → Option Nat → List α)
    (book_id : Nat) (query : String) (top_k : Nat)
    (chapter_filter : Option Nat) : List α :=
  let filter_metadata : Option Nat :=
    match chapter_filter with
    | some c => if c ≠ 0 then some c else none
    | none => none
  search book_id query top_k filter_metadata

/-! ### Concrete instances used by witnesses and counterexamples -/

/-- A chunker with tiny size bounds (the size bounds are configuration, not
fixed by the algorithm). -/
def ckTiny : SmartChunker :=
  { base_chunk_size := 4, max_chunk_size := 4, overlap_size := 0,
    tokenizer := none }

/-- A chunker with small bounds and zero overlap. -/
def ckNoOv : SmartChunker :=
  { base_chunk_size := 8, max_chunk_size := 8, overlap_size := 0,
    tokenizer := none }

/-- Modelled from the spec: the fallback token count round(word_count * 1.33),
i.e. rounding 1.33 * w to the nearest integer, in exact arithmetic.  Written
from the spec's words for comparison with count_tokens (the source truncates
instead). -/
def specRoundTokens (wordCount : Nat) : Nat := (wordCount * 133 + 50) / 100

/-- The keyword-extraction test text of the spec. -/
def kwTestText : String :=
  "The quick brown fox jumps over the lazy dog. The dog barks."

/-- A stub chunker collaborator producing one fixed chunk. -/
def chunker0 : String → List TextChunk := fun _ =>
  [{ content := "Some text.", metadata := { chunk_index := 0, token_count := 2 } }]

/-- A book row that extraction completed but RAG has not processed. -/
def bookC1 : BookRow :=
  { id := 1, cleaned_text := "Some text.", processing_status := "completed" }

/-- Initial storage state holding that one book. -/
def stC1 : DBState := { book := some bookC1 }

/-- A collaborator schedule where every step succeeds. -/
def worldOK : RAGWorld := {}

/-- The storage state after a successful first processing run of bookC1. -/
def stAfter : DBState :=
  { book := some
      { bookC1 with
        is_embedded := true
        embedding_model := some worldOK.modelName
        chunk_count := 1
        processing_status := "completed" }
    chunks := [(1, chunkRowOf 1
      { content := "Some text.", metadata := { chunk_index := 0, token_count := 2 } })]
    nextId := 2
    vectors := [(1, "Some text.")] }

/-- A stub search collaborator recording which filter it received. -/
def searchStub : Nat → String → Nat → Option Nat → List Nat :=
  fun b _q k f => [b, k, f.getD 99]

/-- The sentence list of "Hi there. Bye now." (established by sl4_correct). -/
def sl4 : List String := ["Hi there.", "Bye now."]

/-- The keyword filter of extract_keywords as a predicate: not a stop word
and longer than 3 characters. -/
def goodKW (w : String) : Prop :=
  stop_words.contains w = false ∧ 3 < w.length

/-! ### C3 -/

/-- C3: a sentence whose token count alone exceeds max_chunk_size is NOT
emitted as its own chunk.  On a two-sentence input whose first sentence
exceeds the max, create_chunk_with_overlap assembles an empty chunk and the
chunk_text loop breaks, returning no chunks at all: the oversized sentence
and every later sentence are dropped, for any amount of fuel. -/
theorem chunk_text_drops_oversized_sentence :
    ckTiny.split_into_sentences "Ww ww ww ww. Aa." = ["Ww ww ww ww.", "Aa."] ∧
    ckTiny.max_chunk_size < ckTiny.count_tokens "Ww ww ww ww." ∧
    ckTiny.count_tokens "Aa." ≤ ckTiny.max_chunk_size ∧
    ∀ fuel, ckTiny.chunk_text (fuel + 1) "Ww ww ww ww. Aa." = some [] :=
  ⟨by decide, by decide, by decide, fun _fuel => by with_unfolding_all rfl⟩

/-! ### C4 -/

/-- The sentence split of the C4 input. -/
theorem sl4_correct :
    create_book_chunker.split_into_sentences "Hi there. Bye now." = sl4 := by
  decide

set_option maxRecDepth 4000 in
set_option maxHeartbeats 1000000 in
/-- The chunk_text loop never leaves sentence index 1 on the two-sentence
input sl4: the chunk from index 1 ends at index 1, the overlap walk returns
0, and the next start index is computed as 1 again. -/
theorem chunkTextLoop_stuck_aux :
    ∀ fuel pos ci acc,
      (chunkTextLoop create_book_chunker sl4 fuel 1 pos ci acc).2 = false := by
  intro fuel
  induction fuel with
  | zero => intro pos ci acc; rfl
  | succ n ih => intro pos ci acc; with_unfolding_all exact ih _ _ _

set_option maxRecDepth 4000 in
set_option maxHeartbeats 1000000 in
/-- C4: chunk_text does not terminate on every input.  On the plain
two-sentence text "Hi there. Bye now." with the default configuration the
while-loop recomputes start index 1 forever, so for every amount of fuel the
embedded loop is still running: the overlap-based advance does not guarantee
progress. -/
theorem chunk_text_diverges_on_short_sentences :
    ∀ fuel, create_book_chunker.chunk_text fuel "Hi there. Bye now." = none := by
  intro fuel
  have h2 : (chunkTextLoop create_book_chunker sl4 fuel 0 0 0 []).2 = false := by
    cases fuel with
    | zero => rfl
    | succ n => with_unfolding_all exact chunkTextLoop_stuck_aux n _ _ _
  unfold SmartChunker.chunk_text
  rw [if_neg (by decide), sl4_correct, if_neg (by decide)]
  rcases hx : chunkTextLoop create_book_chunker sl4 fuel 0 0 0 [] with ⟨cs, b⟩
  rw [hx] at h2
  simp only at h2
  subst h2
  rfl

/-! ### C8 -/

/-- C8 counterexample: with the encoder unavailable, a three-word text gets
3 tokens from count_tokens (truncation of 3.99), while the spec's
round(word_count * 1.33) gives 4. -/
theorem count_tokens_truncates_not_rounds :
    create_book_chunker.tokenizer = none ∧
    (pyWords "one two three").length = 3 ∧
    create_book_chunker.count_tokens "one two three" = 3 ∧
    specRoundTokens 3 = 4 ∧
    create_book_chunker.count_tokens "one two three" ≠
      specRoundTokens (pyWords "one two three").length :=
  ⟨rfl, by decide, by decide, by decide, by decide⟩

/-- C8 amended: with the encoder unavailable, count_tokens(text) is the
floor (truncation), not the rounding, of word_count * 1.33: it is the
unique natural c with 100 * c ≤ 133 * word_count < 100 * (c + 1); as a Nat
it is non-negative by type. -/
theorem count_tokens_fallback_floor (ck : SmartChunker)
    (h : ck.tokenizer = none) (text : String) :
    100 * ck.count_tokens text ≤ 133 * (pyWords text).length ∧
    133 * (pyWords text).length < 100 * (ck.count_tokens text + 1) := by
  simp only [SmartChunker.count_tokens, h]
  have hd := Nat.div_add_mod ((pyWords text).length * 133) 100
  have hm : (pyWords text).length * 133 % 100 < 100 :=
    Nat.mod_lt _ (by norm_num)
  omega

/-- C8 witness: the floor characterization evaluated on a concrete text. -/
theorem count_tokens_fallback_floor_witness :
    100 * create_book_chunker.count_tokens "alpha beta" ≤
      133 * (pyWords "alpha beta").length ∧
    133 * (pyWords "alpha beta").length <
      100 * (create_book_chunker.count_tokens "alpha beta" + 1) :=
  count_tokens_fallback_floor create_book_chunker rfl "alpha beta"

/-! ### C10 -/

/-- C10: search_book_content builds the chapter metadata filter only for a
truthy chapter number: a filter of 0 performs exactly the unfiltered search,
a nonzero filter is passed through, so no call at this interface ever hands
the underlying search a chapter-0 filter. -/
theorem search_chapter_filter_zero_unfiltered {α : Type}
    (search : Nat → String → Nat → Option Nat → List α)
    (book_id : Nat) (query : String) (top_k : Nat) :
    (RAGService.search_book_content search book_id query top_k (some 0) =
        search book_id query top_k none ∧
      RAGService.search_book_content search book_id query top_k none =
        search book_id query top_k none) ∧
    ∀ c, c ≠ 0 →
      RAGService.search_book_content search book_id query top_k (some c) =
        search book_id query top_k (some c) := by
  refine ⟨⟨rfl, rfl⟩, fun c hc => ?_⟩
  unfold RAGService.search_book_content
  simp [hc]

/-- C10 witness: the filter behaviour observed through a stub search
collaborator at concrete arguments. -/
theorem search_chapter_filter_zero_unfiltered_witness :
    (RAGService.search_book_content searchStub 7 "q" 5 (some 0) =
        searchStub 7 "q" 5 none ∧
      RAGService.search_book_content searchStub 7 "q" 5 none =
        searchStub 7 "q" 5 none) ∧
    RAGService.search_book_content searchStub 7 "q" 5 (some 3) =
      searchStub 7 "q" 5 (some 3) :=
  ⟨(search_chapter_filter_zero_unfiltered searchStub 7 "q" 5).1,
   (search_chapter_filter_zero_unfiltered searchStub 7 "q" 5).2 3 (by decide)⟩

/-! ### C9 -/

/-- Membership through a stable descending insertion. -/
theorem mem_of_mem_insertDesc (key : String → Nat) (x a : String) :
    ∀ l : List String, a ∈ insertDesc key x l → a = x ∨ a ∈ l := by
  intro l
  induction l with
  | nil =>
    intro h
    simp only [insertDesc, List.mem_singleton] at h
    exact Or.inl h
  | cons y ys ih =>
    intro h
    simp only [insertDesc] at h
    by_cases hc : key y ≤ key x
    · rw [if_pos hc] at h
      rcases List.mem_cons.mp h with h1 | h2
      · exact Or.inl h1
      · exact Or.inr h2
    · rw [if_neg hc] at h
      rcases List.mem_cons.mp h with h1 | h2
      · exact Or.inr (List.mem_cons.mpr (Or.inl h1))
      · rcases ih h2 with h3 | h4
        · exact Or.inl h3
        · exact Or.inr (List.mem_cons.mpr (Or.inr h4))

/-- Membership through the stable descending sort. -/
theorem mem_of_mem_sortDesc (key : String → Nat) (a : String) :
    ∀ l : List String, a ∈ sortDesc key l → a ∈ l := by
  intro l
  induction l with
  | nil => intro h; simp [sortDesc] at h
  | cons x xs ih =>
    intro h
    have hx : sortDesc key (x :: xs) = insertDesc key x (sortDesc key xs) := rfl
    rw [hx] at h
    rcases mem_of_mem_insertDesc key x a _ h with h1 | h2
    · subst h1; exact List.mem_cons_self _ _
    · exact List.mem_cons.mpr (Or.inr (ih h2))

/-- Incrementing a key in the frequency dictionary preserves a property of
the keys, provided the new key has it. -/
theorem bumpFreq_keys_good (w : String) (hw : goodKW w) :
    ∀ m : List (String × Nat), (∀ p ∈ m, goodKW p.1) →
      ∀ p ∈ bumpFreq m w, goodKW p.1 := by
  intro m
  induction m with
  | nil =>
    intro _ p hp
    simp only [bumpFreq, List.mem_singleton] at hp
    subst hp
    exact hw
  | cons q rest ih =>
    intro hm p hp
    rcases q with ⟨k, n⟩
    simp only [bumpFreq] at hp
    by_cases hc : k = w
    · rw [if_pos hc] at hp
      rcases List.mem_cons.mp hp with h1 | h2
      · subst h1; exact hm (k, n) (List.mem_cons_self _ _)
      · exact hm _ (List.mem_cons.mpr (Or.inr h2))
    · rw [if_neg hc] at hp
      rcases List.mem_cons.mp hp with h1 | h2
      · subst h1; exact hm (k, n) (List.mem_cons_self _ _)
      · exact ih (fun r hr => hm r (List.mem_cons.mpr (Or.inr hr))) p h2

/-- One word_freq iteration preserves the key property. -/
theorem kwStep_keys_good (m : List (String × Nat)) (w : String)
    (hm : ∀ p ∈ m, goodKW p.1) : ∀ p ∈ kwStep m w, goodKW p.1 := by
  intro p hp
  unfold kwStep at hp
  split at hp
  case isTrue h =>
    refine bumpFreq_keys_good w ?_ m hm p hp
    simp only [Bool.and_eq_true, Bool.not_eq_true'] at h
    exact ⟨h.1, of_decide_eq_true h.2⟩
  case isFalse _ => exact hm p hp

/-- Every key of the frequency dictionary passed the stop-word and length
filters. -/
theorem buildFreq_keys_good (ws : List String) :
    ∀ p ∈ buildFreq ws, goodKW p.1 := by
  unfold buildFreq
  suffices h : ∀ (ws : List String) (init : List (String × Nat)),
      (∀ p ∈ init, goodKW p.1) → ∀ p ∈ ws.foldl kwStep init, goodKW p.1 by
    exact h ws [] (by simp)
  intro ws
  induction ws with
  | nil => intro init h p hp; simpa using h p (by simpa using hp)
  | cons w rest ih =>
    intro init h p hp
    rw [List.foldl_cons] at hp
    exact ih (kwStep init w) (kwStep_keys_good init w h) p hp

/-- C9 counterexample: on the spec's test sentence, the word over is removed
by the fixed stop-word set, so the claimed output set (which includes over)
is not produced. -/
theorem extract_keywords_over_is_stopword :
    "over" ∈ stop_words ∧
    "over" ∉ create_book_chunker.extract_keywords kwTestText 10 := by
  constructor
  · decide
  · decide

/-- C9 amended: extract_keywords on the spec's test sentence yields exactly
[quick, brown, jumps, lazy, barks] (frequency ties broken by first-seen
order; over is excluded because it is a stop word); in general the output
has at most 10 entries and every entry is a non-stop-word token longer than
3 characters. -/
theorem extract_keywords_spec :
    create_book_chunker.extract_keywords kwTestText 10 =
      ["quick", "brown", "jumps", "lazy", "barks"] ∧
    (∀ text : String,
      (create_book_chunker.extract_keywords text 10).length ≤ 10) ∧
    ∀ text w : String, w ∈ create_book_chunker.extract_keywords text 10 →
      stop_words.contains w = false ∧ 3 < w.length := by
  refine ⟨by decide, fun text => ?_, fun text w hw => ?_⟩
  · unfold SmartChunker.extract_keywords
    exact List.length_take_le _ _
  · unfold SmartChunker.extract_keywords at hw
    have h1 := List.mem_of_mem_take hw
    have h2 := mem_of_mem_sortDesc _ _ _ h1
    rcases List.mem_map.mp h2 with ⟨p, hp, hpe⟩
    have := buildFreq_keys_good _ p hp
    rw [hpe] at this
    exact this

/-- C9 witness: the general bounds evaluated at the test text and the
concrete member quick. -/
theorem extract_keywords_spec_witness :
    (create_book_chunker.extract_keywords kwTestText 10).length ≤ 10 ∧
    (stop_words.contains "quick" = false ∧ 3 < "quick".length) :=
  ⟨extract_keywords_spec.2.1 kwTestText,
   extract_keywords_spec.2.2 kwTestText "quick" (by decide)⟩

/-! ### C6 -/

/-- The accumulation loop of create_chunk_with_overlap keeps the running
token count, summed over the sentences it picks, within max_chunk_size. -/
theorem chunkFromAux_sum_le (ck : SmartChunker) (target : Nat) :
    ∀ (rest : List String) (i cur endIdx : Nat), cur ≤ ck.max_chunk_size →
      cur + (((chunkFromAux ck target rest i cur endIdx).1).map
        ck.count_tokens).sum ≤ ck.max_chunk_size := by
  intro rest
  induction rest with
  | nil => intro i cur e h; simpa [chunkFromAux] using h
  | cons s rest ih =>
    intro i cur e h
    simp only [chunkFromAux]
    split
    · simpa using h
    · split
      · rename_i h1 h2
        simp only [List.map_cons, List.map_nil, List.sum_cons, List.sum_nil]
        omega
      · rename_i h1 h2
        rcases hr : chunkFromAux ck target rest (i + 1)
            (cur + ck.count_tokens s) i with ⟨ss, e2⟩
        have hih := ih (i + 1) (cur + ck.count_tokens s) i (by omega)
        rw [hr] at hih
        simp only [hr, List.map_cons, List.sum_cons]
        simp only at hih
        omega

/-- C6 amended: for every chunk assembled by create_chunk_with_overlap (and
hence every chunk emitted by chunk_text), the SUM of the per-sentence token
counts stays within max_chunk_size; the boundary guard operates on that sum,
while the recorded token_count re-tokenizes the joined text and can exceed
the max (see the counterexample). -/
theorem chunk_token_sum_le_max (ck : SmartChunker) (sentences : List String)
    (start_idx : Nat) :
    (((ck.create_chunk_sentences sentences start_idx ck.base_chunk_size).1).map
      ck.count_tokens).sum ≤ ck.max_chunk_size := by
  have h := chunkFromAux_sum_le ck ck.base_chunk_size
    (sentences.drop start_idx) start_idx 0 start_idx (Nat.zero_le _)
  simpa [SmartChunker.create_chunk_sentences] using h

/-- C6 counterexample: a two-sentence chunk whose per-sentence token counts
(3 and 5) both fit the max of 8 and sum to 8, yet whose recorded token_count
(the tokenizer run on the space-joined text, 7 words) is 9 > 8.  The chunk
is not a single oversized sentence, so the claimed boundary exception does
not apply. -/
theorem chunk_token_count_exceeds_max :
    ckNoOv.chunk_text 2 "Aa bb cc. Dd ee ff gg." =
      some [⟨"Aa bb cc. Dd ee ff gg.", ⟨0, 9, none, none, none, 0, 22, []⟩⟩] ∧
    ckNoOv.max_chunk_size = 8 ∧
    ckNoOv.max_chunk_size < 9 ∧
    (ckNoOv.create_chunk_sentences
      (ckNoOv.split_into_sentences "Aa bb cc. Dd ee ff gg.") 0
      ckNoOv.base_chunk_size).1 = ["Aa bb cc.", "Dd ee ff gg."] ∧
    (∀ s ∈ ckNoOv.split_into_sentences "Aa bb cc. Dd ee ff gg.",
      ckNoOv.count_tokens s ≤ ckNoOv.max_chunk_size) := by
  refine ⟨by decide, by decide, by decide, by decide, by decide⟩

/-! ### C5 -/

/-- Appending adjacent interval enumerations. -/
theorem range'_append_adjacent (m : Nat) :
    ∀ s n : Nat, List.range' s m ++ List.range' (s + m) n =
      List.range' s (m + n) := by
  induction m with
  | zero => intro s n; simp [List.range']
  | succ k ih =>
    intro s n
    rw [List.range'_succ, Nat.succ_add, List.range'_succ, List.cons_append]
    rw [show s + (k + 1) = s + 1 + k by omega, ih (s + 1) n]

/-- The chunk indices accumulated by the chunk_text loop extend the indices
already in the accumulator by a consecutive run starting at the current
counter, whatever the loop does. -/
theorem chunkTextLoop_indices (ck : SmartChunker) (s : List String) :
    ∀ fuel idx pos ci acc, ∃ k,
      ((chunkTextLoop ck s fuel idx pos ci acc).1).map
          (fun c => c.metadata.chunk_index) =
        (acc.reverse.map fun c => c.metadata.chunk_index) ++
          List.range' ci k := by
  intro fuel
  induction fuel with
  | zero =>
    intro idx pos ci acc
    exact ⟨0, by simp [chunkTextLoop]⟩
  | succ n ih =>
    intro idx pos ci acc
    simp only [chunkTextLoop]
    by_cases h1 : s.length ≤ idx
    · rw [if_pos h1]
      exact ⟨0, by simp⟩
    · rw [if_neg h1]
      by_cases h2 :
          pyStrip (ck.create_chunk_with_overlap s idx ck.base_chunk_size).1 = ""
      · rw [if_pos h2]
        exact ⟨0, by simp⟩
      · rw [if_neg h2]
        obtain ⟨k, hk⟩ := ih _ _ (ci + 1) (_ :: acc)
        refine ⟨k + 1, ?_⟩
        rw [hk]
        simp [List.range'_succ]

/-- chunk_text output carries chunk_index values 0..N-1 (auxiliary form). -/
theorem chunk_text_indices_aux (ck : SmartChunker) (fuel : Nat) (text : String)
    (cs : List TextChunk) (h : ck.chunk_text fuel text = some cs) :
    cs.map (fun c => c.metadata.chunk_index) = List.range cs.length := by
  unfold SmartChunker.chunk_text at h
  by_cases he : pyStrip text = ""
  · rw [if_pos he] at h
    cases h
    simp
  · rw [if_neg he] at h
    by_cases hs : ck.split_into_sentences text = []
    · rw [if_pos hs] at h
      cases h
      simp
    · rw [if_neg hs] at h
      rcases hx : chunkTextLoop ck (ck.split_into_sentences text)
          fuel 0 0 0 [] with ⟨cs', b⟩
      rw [hx] at h
      cases b
      · simp at h
      · simp only at h
        cases h
        obtain ⟨k, hk⟩ := chunkTextLoop_indices ck
          (ck.split_into_sentences text) fuel 0 0 0 []
        rw [hx] at hk
        simp only [List.reverse_nil, List.map_nil, List.nil_append] at hk
        have hlen : cs.length = k := by
          have hl := congrArg List.length hk
          simpa using hl
        rw [List.range_eq_range', hlen]
        exact hk

/-- The renumbering pass of chunk_book_by_chapters assigns consecutive
global indices starting at the given counter. -/
theorem renumberSeg_indices (pos : Nat) (t : Option String) (nm : Option Nat) :
    ∀ (cs : List TextChunk) (gidx : Nat),
      ((renumberSeg pos t nm cs gidx).1).map (fun c => c.metadata.chunk_index) =
        List.range' gidx cs.length ∧
      (renumberSeg pos t nm cs gidx).2 = gidx + cs.length ∧
      (renumberSeg pos t nm cs gidx).1.length = cs.length := by
  intro cs
  induction cs with
  | nil => intro gidx; simp [renumberSeg, List.range']
  | cons c rest ih =>
    intro gidx
    simp only [renumberSeg]
    rcases hr : renumberSeg pos t nm rest (gidx + 1) with ⟨cs', g'⟩
    have hih := ih (gidx + 1)
    rw [hr] at hih
    simp only at hih
    simp only [hr, List.map_cons, List.length_cons, List.range'_succ]
    refine ⟨by rw [hih.1], by omega, by rw [hih.2.2]⟩

/-- The per-segment loop of chunk_book_by_chapters produces chunks whose
indices are a consecutive run starting at the incoming counter. -/
theorem chunkByChaptersAux_indices (ck : SmartChunker) (fuel : Nat) :
    ∀ (segs : List String) (gidx pos : Nat) (out : List TextChunk),
      chunkByChaptersAux ck fuel segs gidx pos = some out →
      out.map (fun c => c.metadata.chunk_index) =
        List.range' gidx out.length := by
  intro segs
  induction segs with
  | nil =>
    intro gidx pos out h
    simp only [chunkByChaptersAux] at h
    cases h
    simp [List.range']
  | cons seg rest ih =>
    intro gidx pos out h
    simp only [chunkByChaptersAux] at h
    by_cases hskip : pyStrip seg = ""
    · rw [if_pos hskip] at h
      exact ih gidx pos out h
    · rw [if_neg hskip] at h
      rcases hct : ck.chunk_text fuel seg with _ | cs
      · rw [hct] at h; simp at h
      · rw [hct] at h
        simp only at h
        rcases ha : chunkByChaptersAux ck fuel rest
            (renumberSeg pos (ck.extract_chapter_info seg).1
              (ck.extract_chapter_info seg).2 cs gidx).2
            (pos + seg.length) with _ | others
        · rw [ha] at h; simp at h
        · rw [ha] at h
          simp only at h
          cases h
          have hre := renumberSeg_indices pos (ck.extract_chapter_info seg).1
            (ck.extract_chapter_info seg).2 cs gidx
          have hoth := ih _ _ others ha
          rw [hre.2.1] at hoth
          simp only [List.map_append, List.length_append, hre.1, hre.2.2, hoth]
          rw [range'_append_adjacent]

/-- C5: whenever chunk_text terminates, its chunks carry chunk_index values
exactly 0..N-1 in emission order, and the same holds for the globally
renumbered output of chunk_book_by_chapters. -/
theorem chunk_indices_dense :
    (∀ (ck : SmartChunker) (fuel : Nat) (text : String) (cs : List TextChunk),
      ck.chunk_text fuel text = some cs →
      cs.map (fun c => c.metadata.chunk_index) = List.range cs.length) ∧
    (∀ (ck : SmartChunker) (fuel : Nat) (text : String) (cs : List TextChunk),
      ck.chunk_book_by_chapters fuel text = some cs →
      cs.map (fun c => c.metadata.chunk_index) = List.range cs.length) := by
  refine ⟨chunk_text_indices_aux, fun ck fuel text cs h => ?_⟩
  unfold SmartChunker.chunk_book_by_chapters at h
  rcases ha : chunkByChaptersAux ck fuel
      ((chapterSplitsAux text.toList []).map fun cs => String.mk cs) 0 0
    with _ | all
  · rw [ha] at h; simp at h
  · rw [ha] at h
    simp only at h
    by_cases hall : all = []
    · rw [if_pos hall] at h
      exact chunk_text_indices_aux ck fuel text cs h
    · rw [if_neg hall] at h
      cases h
      have hi := chunkByChaptersAux_indices ck fuel _ 0 0 cs ha
      rwa [← List.range_eq_range'] at hi

/-- C5 witness: both functions evaluated on a one-sentence text. -/
theorem chunk_indices_dense_witness :
    ([(⟨"Hello world.", ⟨0, 2, none, none, none, 0, 12, ["hello", "world"]⟩⟩ :
        TextChunk)].map (fun c => c.metadata.chunk_index) =
      List.range 1) ∧
    ([(⟨"Hello world.", ⟨0, 2, none, none, none, 0, 12, ["hello", "world"]⟩⟩ :
        TextChunk)].map (fun c => c.metadata.chunk_index) =
      List.range 1) :=
  ⟨chunk_indices_dense.1 create_book_chunker 2 "Hello world."
      [⟨"Hello world.", ⟨0, 2, none, none, none, 0, 12, ["hello", "world"]⟩⟩]
      (by decide),
   chunk_indices_dense.2 create_book_chunker 2 "Hello world."
      [⟨"Hello world.", ⟨0, 2, none, none, none, 0, 12, ["hello", "world"]⟩⟩]
      (by decide)⟩

/-! ### C7 -/

/-- A String.mk value is the empty string exactly when its character list is
empty. -/
theorem string_mk_eq_empty_iff (l : List Char) : String.mk l = "" ↔ l = [] := by
  constructor
  · intro h
    have hd := congrArg String.data h
    exact hd
  · intro h
    subst h
    rfl

/-- pyStrip yields the empty string exactly when every character is
whitespace. -/
theorem pyStrip_eq_empty_iff (s : String) :
    pyStrip s = "" ↔ ∀ c ∈ s.toList, c.isWhitespace = true := by
  unfold pyStrip
  rw [string_mk_eq_empty_iff, List.reverse_eq_nil_iff, List.dropWhile_eq_nil_iff]
  constructor
  · intro h c hc
    have hsplit := List.takeWhile_append_dropWhile
      (p := fun c : Char => c.isWhitespace) (l := s.toList)
    rw [← hsplit] at hc
    rcases List.mem_append.mp hc with h1 | h2
    · exact List.mem_takeWhile_imp h1
    · exact h c (List.mem_reverse.mpr h2)
  · intro h c hc
    exact h c ((List.dropWhile_suffix _).subset (List.mem_reverse.mp hc))

/-- The first element surviving a dropWhile falsifies the predicate. -/
theorem dropWhile_cons_prop (p : Char → Bool) :
    ∀ (l : List Char) (a : Char) (t : List Char),
      l.dropWhile p = a :: t → p a = false := by
  intro l
  induction l with
  | nil => intro a t h; simp at h
  | cons x xs ih =>
    intro a t h
    rw [List.dropWhile_cons] at h
    by_cases hp : p x = true
    · rw [if_pos hp] at h
      exact ih a t h
    · rw [if_neg hp] at h
      cases h
      simpa using hp

/-- A nonempty stripped string contains a non-whitespace character. -/
theorem pyStrip_has_nonws (s : String) (h : pyStrip s ≠ "") :
    ∃ c ∈ (pyStrip s).toList, c.isWhitespace = false := by
  have hmne :
      (s.toList.dropWhile Char.isWhitespace).reverse.dropWhile
        Char.isWhitespace ≠ [] := by
    intro hme
    apply h
    unfold pyStrip
    rw [hme]
    rfl
  obtain ⟨a, t, hat⟩ := List.exists_cons_of_ne_nil hmne
  have hws := dropWhile_cons_prop Char.isWhitespace
    ((s.toList.dropWhile Char.isWhitespace).reverse) a t hat
  refine ⟨a, ?_, hws⟩
  show a ∈ ((s.toList.dropWhile Char.isWhitespace).reverse.dropWhile
    Char.isWhitespace).reverse
  rw [hat]
  simp

/-- Every sentence produced by split_into_sentences contains at least one
non-whitespace character. -/
theorem split_sentences_has_nonws (ck : SmartChunker) (text : String) :
    ∀ t ∈ ck.split_into_sentences text,
      ∃ c ∈ t.toList, c.isWhitespace = false := by
  intro t ht
  unfold SmartChunker.split_into_sentences at ht
  rw [List.mem_filter] at ht
  obtain ⟨hmem, hne⟩ := ht
  rcases List.mem_map.mp hmem with ⟨cs, _, hcs⟩
  subst hcs
  exact pyStrip_has_nonws _ (by simpa using hne)

/-- Every character of a piece produced by the sentence-splitting scanner
comes from the remaining input, the current piece, or the pending
whitespace run. -/
theorem splitSentencesAux_chars :
    ∀ (l acc pend piece : List Char),
      piece ∈ splitSentencesAux l acc pend →
      ∀ c ∈ piece, c ∈ l ∨ c ∈ acc ∨ c ∈ pend := by
  intro l
  induction l with
  | nil =>
    intro acc pend piece hp c hc
    simp only [splitSentencesAux, List.mem_singleton] at hp
    subst hp
    rcases List.mem_append.mp (List.mem_reverse.mp hc) with h | h
    · exact Or.inr (Or.inr h)
    · exact Or.inr (Or.inl h)
  | cons d rest ih =>
    intro acc pend piece hp c hc
    simp only [splitSentencesAux] at hp
    by_cases h1 : d.isWhitespace = true
    · rw [if_pos h1] at hp
      rcases ih acc (d :: pend) piece hp c hc with h | h | h
      · exact Or.inl (List.mem_cons.mpr (Or.inr h))
      · exact Or.inr (Or.inl h)
      · rcases List.mem_cons.mp h with h2 | h2
        · exact Or.inl (by simp [h2])
        · exact Or.inr (Or.inr h2)
    · rw [if_neg h1] at hp
      split at hp
      · rcases List.mem_cons.mp hp with h3 | h3
        · subst h3
          exact Or.inr (Or.inl (List.mem_reverse.mp hc))
        · rcases ih [d] [] piece h3 c hc with h | h | h
          · exact Or.inl (List.mem_cons.mpr (Or.inr h))
          · exact Or.inl (by simp at h; simp [h])
          · simp at h
      · rcases ih (d :: (pend ++ acc)) [] piece hp c hc with h | h | h
        · exact Or.inl (List.mem_cons.mpr (Or.inr h))
        · rcases List.mem_cons.mp h with h3 | h3
          · exact Or.inl (by simp [h3])
          · rcases List.mem_append.mp h3 with h4 | h4
            · exact Or.inr (Or.inr h4)
            · exact Or.inr (Or.inl h4)
        · simp at h

/-- A whitespace-only text splits into no sentences. -/
theorem split_into_sentences_nil_of_ws (ck : SmartChunker) (text : String)
    (h : ∀ c ∈ text.toList, c.isWhitespace = true) :
    ck.split_into_sentences text = [] := by
  unfold SmartChunker.split_into_sentences
  rw [List.filter_eq_nil_iff]
  intro t ht
  rcases List.mem_map.mp ht with ⟨cs, hcs, hts⟩
  subst hts
  simp only [decide_not, Bool.not_eq_true', decide_eq_false_iff_not, not_not]
  rw [pyStrip_eq_empty_iff]
  intro c hc
  rcases splitSentencesAux_chars text.toList [] [] cs hcs c hc with h1 | h1 | h1
  · exact h c h1
  · simp at h1
  · simp at h1

/-- joinSpChars on a cons with nonempty tail. -/
theorem joinSpChars_cons_ne (x : List Char) (l : List (List Char))
    (h : l ≠ []) : joinSpChars (x :: l) = x ++ ' ' :: joinSpChars l := by
  cases l with
  | nil => exact absurd rfl h
  | cons y ys => rfl

/-- joinSpChars distributes over append of nonempty lists. -/
theorem joinSpChars_append (a b : List (List Char)) (ha : a ≠ [])
    (hb : b ≠ []) :
    joinSpChars (a ++ b) = joinSpChars a ++ ' ' :: joinSpChars b := by
  induction a with
  | nil => exact absurd rfl ha
  | cons x xs ih =>
    cases xs with
    | nil => simpa using joinSpChars_cons_ne x b hb
    | cons y ys =>
      rw [List.cons_append, joinSpChars_cons_ne x (y :: ys ++ b) (by simp),
        joinSpChars_cons_ne x (y :: ys) (by simp), ih (by simp)]
      simp

/-- joinSp on a cons with nonempty tail, at the string level. -/
theorem joinSp_cons_ne (x : String) (l : List String) (h : l ≠ []) :
    joinSp (x :: l) = String.mk (x.toList ++ ' ' :: (joinSp l).toList) := by
  unfold joinSp
  rw [List.map_cons, joinSpChars_cons_ne _ _ (by simpa using h)]
  rfl

/-- joinSp distributes over append of nonempty lists. -/
theorem joinSp_append (l1 l2 : List String) (h1 : l1 ≠ []) (h2 : l2 ≠ []) :
    joinSp (l1 ++ l2) =
      String.mk ((joinSp l1).toList ++ ' ' :: (joinSp l2).toList) := by
  unfold joinSp
  rw [List.map_append,
    joinSpChars_append _ _ (by simpa using h1) (by simpa using h2)]
  rfl

/-- A character of the first sentence occurs in the joined chunk text. -/
theorem mem_toList_joinSp_head (t : String) (l : List String) (c : Char)
    (hc : c ∈ t.toList) : c ∈ (joinSp (t :: l)).toList := by
  cases l with
  | nil => exact hc
  | cons y ys =>
    show c ∈ t.toList ++ ' ' :: joinSpChars ((y :: ys).map String.toList)
    exact List.mem_append_left _ hc

/-- The accumulation loop picks a prefix of the remaining sentences, and its
end index is start + k - 1 when k sentences were picked. -/
theorem chunkFromAux_take (ck : SmartChunker) (target : Nat) :
    ∀ (rest : List String) (i cur e0 : Nat),
      (chunkFromAux ck target rest i cur e0).1 =
        rest.take ((chunkFromAux ck target rest i cur e0).1).length ∧
      ((chunkFromAux ck target rest i cur e0).1 = [] →
        (chunkFromAux ck target rest i cur e0).2 = e0) ∧
      ((chunkFromAux ck target rest i cur e0).1 ≠ [] →
        (chunkFromAux ck target rest i cur e0).2 =
          i + ((chunkFromAux ck target rest i cur e0).1).length - 1) := by
  intro rest
  induction rest with
  | nil => intro i cur e0; exact ⟨rfl, fun _ => rfl, fun h => absurd rfl h⟩
  | cons s rest ih =>
    intro i cur e0
    simp only [chunkFromAux]
    by_cases hb1 : ck.max_chunk_size < cur + ck.count_tokens s
    · rw [if_pos hb1]
      exact ⟨rfl, fun _ => rfl, fun h => absurd rfl h⟩
    · rw [if_neg hb1]
      by_cases hb2 : target ≤ cur + ck.count_tokens s
      · rw [if_pos hb2]
        exact ⟨rfl, by simp, fun _ => by simp⟩
      · rw [if_neg hb2]
        rcases hr : chunkFromAux ck target rest (i + 1)
            (cur + ck.count_tokens s) i with ⟨ss, e⟩
        have hih := ih (i + 1) (cur + ck.count_tokens s) i
        rw [hr] at hih
        simp only [hr]
        simp only at hih
        refine ⟨?_, by simp, fun _ => ?_⟩
        · simp only [List.length_cons, List.take_succ_cons]
          rw [← hih.1]
        · by_cases hss : ss = []
          · subst hss
            have he := hih.2.1 rfl
            simp only [List.length_cons, List.length_nil]
            omega
          · have he := hih.2.2 hss
            have hlp : 0 < ss.length := List.length_pos.mpr hss
            simp only [List.length_cons]
            omega

/-- When the first remaining sentence fits max_chunk_size and the running
count starts at zero, the accumulation loop picks at least one sentence. -/
theorem chunkFromAux_ne_nil (ck : SmartChunker) (target : Nat) (s : String)
    (rest : List String) (i e0 : Nat)
    (h : ck.count_tokens s ≤ ck.max_chunk_size) :
    (chunkFromAux ck target (s :: rest) i 0 e0).1 ≠ [] := by
  simp only [chunkFromAux]
  rw [if_neg (by omega)]
  by_cases hb2 : target ≤ 0 + ck.count_tokens s
  · rw [if_pos hb2]
    simp
  · rw [if_neg hb2]
    rcases hr : chunkFromAux ck target rest (i + 1)
        (0 + ck.count_tokens s) i with ⟨ss, e⟩
    simp [hr]

/-- With overlap size zero, the advance computation of the chunk_text loop
moves the start index to exactly one past the chunk's end index. -/
theorem next_idx_overlap_zero (ck : SmartChunker) (h0 : ck.overlap_size = 0)
    (s : List String) (e : Nat) :
    (if e < ck.find_overlap_start s e + 1 then e + 1
     else ck.find_overlap_start s e + 1) = e + 1 := by
  cases e with
  | zero =>
    have hz : ck.find_overlap_start s 0 = 0 := by
      unfold SmartChunker.find_overlap_start
      rw [if_pos rfl]
    rw [hz, if_pos (by omega)]
  | succ m =>
    have hs : ck.find_overlap_start s (m + 1) = m + 1 := by
      unfold SmartChunker.find_overlap_start
      rw [if_neg (by omega)]
      simp only [fosAux]
      rw [if_neg (by rw [h0]; omega)]
    rw [hs, if_pos (by omega)]

/-- With overlap 0 and all sentences within the max, the chunk_text loop
exits and its emitted chunks carry the remaining sentences in order: the
tail of chunks is empty exactly when no sentence remains, and the joined
chunk contents reproduce the joined remaining sentences. -/
theorem chunkTextLoop_partition (ck : SmartChunker) (s : List String)
    (h0 : ck.overlap_size = 0)
    (hmax : ∀ t ∈ s, ck.count_tokens t ≤ ck.max_chunk_size)
    (hnws : ∀ t ∈ s, ∃ c ∈ t.toList, c.isWhitespace = false) :
    ∀ (n idx pos ci : Nat) (acc : List TextChunk), s.length ≤ idx + n →
      ∃ tail : List TextChunk,
        chunkTextLoop ck s (n + 1) idx pos ci acc =
          (acc.reverse ++ tail, true) ∧
        (tail = [] ↔ s.drop idx = []) ∧
        joinSp (tail.map fun c => c.content) = joinSp (s.drop idx) := by
  intro n
  induction n with
  | zero =>
    intro idx pos ci acc hlen
    have hd : s.drop idx = [] := List.drop_eq_nil_of_le (by omega)
    refine ⟨[], ?_, by simp [hd], by simp [hd]⟩
    simp only [chunkTextLoop]
    rw [if_pos (by omega)]
    simp
  | succ n ih =>
    intro idx pos ci acc hlen
    by_cases hend : s.length ≤ idx
    · have hd : s.drop idx = [] := List.drop_eq_nil_of_le hend
      refine ⟨[], ?_, by simp [hd], by simp [hd]⟩
      simp only [chunkTextLoop]
      rw [if_pos hend]
      simp
    · obtain ⟨t, rest', hdrop⟩ := List.exists_cons_of_ne_nil
        (fun hh => hend (List.drop_eq_nil_iff.mp hh))
      have htmem : t ∈ s :=
        List.mem_of_mem_drop (hdrop ▸ List.mem_cons_self t rest')
      have hres : ck.create_chunk_sentences s idx ck.base_chunk_size =
          chunkFromAux ck ck.base_chunk_size (s.drop idx) idx 0 idx := rfl
      have hne : (ck.create_chunk_sentences s idx ck.base_chunk_size).1 ≠ [] := by
        rw [hres, hdrop]
        exact chunkFromAux_ne_nil ck _ t rest' idx idx (hmax t htmem)
      obtain ⟨htk, _, hend2⟩ :=
        chunkFromAux_take ck ck.base_chunk_size (s.drop idx) idx 0 idx
      rw [← hres] at htk hend2
      have he : (ck.create_chunk_sentences s idx ck.base_chunk_size).2 =
          idx + (ck.create_chunk_sentences s idx ck.base_chunk_size).1.length
            - 1 := hend2 hne
      have hklen : 0 <
          (ck.create_chunk_sentences s idx ck.base_chunk_size).1.length :=
        List.length_pos.mpr hne
      have hsshape : ∃ ss',
          (ck.create_chunk_sentences s idx ck.base_chunk_size).1 = t :: ss' := by
        refine ⟨rest'.take
          ((ck.create_chunk_sentences s idx ck.base_chunk_size).1.length - 1),
          ?_⟩
        rw [htk, hdrop]
        rcases hk : (ck.create_chunk_sentences s idx ck.base_chunk_size).1.length
          with _ | k
        · omega
        · simp [List.take_succ_cons]
      have hct : pyStrip
          (joinSp (ck.create_chunk_sentences s idx ck.base_chunk_size).1) ≠ "" := by
        obtain ⟨c, hcmem, hcws⟩ := hnws t htmem
        obtain ⟨ss', hss'⟩ := hsshape
        intro hps
        rw [pyStrip_eq_empty_iff] at hps
        have hcin : c ∈
            (joinSp (ck.create_chunk_sentences s idx ck.base_chunk_size).1).toList := by
          rw [hss']
          exact mem_toList_joinSp_head t ss' c hcmem
        have hcontra := hps c hcin
        rw [hcws] at hcontra
        exact absurd hcontra (by simp)
      have hsplit := List.drop_take_append_drop s idx
        (ck.create_chunk_sentences s idx ck.base_chunk_size).1.length
      rw [← htk] at hsplit
      obtain ⟨m, hm⟩ : ∃ m, m = n + 1 := ⟨n + 1, rfl⟩
      rw [show n + 1 + 1 = m + 1 from by omega]
      simp only [chunkTextLoop]
      rw [hm]
      rw [if_neg hend]
      simp only [SmartChunker.create_chunk_with_overlap]
      rw [if_neg hct]
      rw [next_idx_overlap_zero ck h0 s]
      rw [show (ck.create_chunk_sentences s idx ck.base_chunk_size).2 + 1 =
        idx + (ck.create_chunk_sentences s idx ck.base_chunk_size).1.length
        from by omega]
      set CT := joinSp (ck.create_chunk_sentences s idx ck.base_chunk_size).1
        with hCT
      set C : TextChunk :=
        ⟨CT, ⟨ci, ck.count_tokens CT, (ck.extract_chapter_info CT).1,
          (ck.extract_chapter_info CT).2, none, pos, pos + CT.length,
          ck.extract_keywords CT 10⟩⟩ with hC
      obtain ⟨tail', hloop, hiff, hjoin⟩ := ih
        (idx + (ck.create_chunk_sentences s idx ck.base_chunk_size).1.length)
        (pos + CT.length) (ci + 1) (C :: acc) (by omega)
      rw [hloop]
      refine ⟨C :: tail', ?_, ?_, ?_⟩
      · rw [List.reverse_cons, List.append_assoc]
        rfl
      · simp [hdrop]
      · simp only [List.map_cons]
        by_cases htail : tail' = []
        · subst htail
          have hdr :
              s.drop (idx +
                (ck.create_chunk_sentences s idx ck.base_chunk_size).1.length) =
              [] := hiff.mp rfl
          rw [hdr, List.append_nil] at hsplit
          rw [← hsplit]
          simp only [List.map_nil]
          rfl
        · have hdr :
              s.drop (idx +
                (ck.create_chunk_sentences s idx ck.base_chunk_size).1.length) ≠
              [] := fun hh => htail (hiff.mpr hh)
          rw [joinSp_cons_ne _ _ (by simpa using htail)]
          rw [← hsplit, joinSp_append _ _ hne hdr]
          rw [hjoin]

/-- C7 counterexample: with overlap_size 0 but a first sentence exceeding
max_chunk_size, chunk_text returns no chunks at all, so the concatenation of
chunk texts (empty) does not reproduce the two-sentence input sequence: the
unrestricted claim fails. -/
theorem chunk_text_drops_rest_overlap_zero :
    ckTiny.overlap_size = 0 ∧
    ckTiny.chunk_text
      ((ckTiny.split_into_sentences "Ww ww ww ww. Aa.").length + 1)
      "Ww ww ww ww. Aa." = some [] ∧
    joinSp (([] : List TextChunk).map fun c => c.content) = "" ∧
    joinSp (ckTiny.split_into_sentences "Ww ww ww ww. Aa.") =
      "Ww ww ww ww. Aa." ∧
    ("" : String) ≠ "Ww ww ww ww. Aa." := by
  refine ⟨rfl, by decide, rfl, by decide, by decide⟩

/-- C7: with overlap_size 0, provided every sentence fits max_chunk_size
(otherwise the oversized-sentence break drops text, see C3), chunk_text
terminates within sentence-count + 1 iterations and the concatenation of the
chunk texts in index order reproduces the space-joined sentence sequence of
the input: the chunks partition the sentences with no repetition or loss. -/
theorem chunk_text_no_overlap_partition (ck : SmartChunker) (text : String)
    (h0 : ck.overlap_size = 0)
    (hmax : ∀ t ∈ ck.split_into_sentences text,
      ck.count_tokens t ≤ ck.max_chunk_size) :
    ∃ cs, ck.chunk_text ((ck.split_into_sentences text).length + 1) text =
        some cs ∧
      joinSp (cs.map fun c => c.content) =
        joinSp (ck.split_into_sentences text) := by
  by_cases he : pyStrip text = ""
  · have hs : ck.split_into_sentences text = [] :=
      split_into_sentences_nil_of_ws ck text ((pyStrip_eq_empty_iff text).mp he)
    refine ⟨[], ?_, by simp [hs]⟩
    unfold SmartChunker.chunk_text
    rw [if_pos he]
  · by_cases hs : ck.split_into_sentences text = []
    · refine ⟨[], ?_, by simp [hs]⟩
      unfold SmartChunker.chunk_text
      rw [if_neg he, if_pos hs]
    · obtain ⟨tail, hloop, _, hjoin⟩ := chunkTextLoop_partition ck
        (ck.split_into_sentences text) h0 hmax
        (split_sentences_has_nonws ck text)
        (ck.split_into_sentences text).length 0 0 0 [] (by omega)
      refine ⟨tail, ?_, by simpa using hjoin⟩
      unfold SmartChunker.chunk_text
      rw [if_neg he, if_neg hs, hloop]
      rfl

/-- C7 witness: the partition observed on a concrete two-sentence text with
a zero-overlap configuration. -/
theorem chunk_text_no_overlap_partition_witness :
    ∃ cs, ckNoOv.chunk_text
        ((ckNoOv.split_into_sentences "Aa bb cc. Dd ee ff gg.").length + 1)
        "Aa bb cc. Dd ee ff gg." = some cs ∧
      joinSp (cs.map fun c => c.content) =
        joinSp (ckNoOv.split_into_sentences "Aa bb cc. Dd ee ff gg.") :=
  chunk_text_no_overlap_partition ckNoOv "Aa bb cc. Dd ee ff gg." rfl
    (by decide)

/-! ### C1 -/

/-- C1 counterexample: when store_chunk_embeddings reports failure (returns
false) after the chunk rows were committed, process_book_for_rag returns a
failure result but leaves the book row completely untouched: the
processing_status stays "completed" (it is not set to "failed") and no error
message is recorded. -/
theorem rag_embed_failure_leaves_status :
    ((RAGService.process_book_for_rag chunker0 { embedResult := false } 1
      "Some text." stC1).1).success = false ∧
    ((RAGService.process_book_for_rag chunker0 { embedResult := false } 1
      "Some text." stC1).2).chunks.length = 1 ∧
    ((RAGService.process_book_for_rag chunker0 { embedResult := false } 1
      "Some text." stC1).2).book = some bookC1 ∧
    bookC1.processing_status = "completed" ∧
    bookC1.processing_error = none ∧
    bookC1.processing_status ≠ "failed" := by
  refine ⟨rfl, rfl, rfl, rfl, rfl, by decide⟩

/-- C1 amended: (a) when a pipeline step raises (persistence, or the final
status commit) and the recovery commit succeeds, the book is marked failed
with the captured message; (b) when store_chunk_embeddings returns false,
the call returns a failure result but the book row is left unchanged — the
status is NOT set to failed; (c) in every run that does not succeed, the
book's is_embedded flag is unchanged (never set). -/
theorem rag_process_failure_paths (chunker : String → List TextChunk)
    (world : RAGWorld) (book_id : Nat) (text : String) (st : DBState) :
    (∀ m, world.persistOutcome = .err m →
      world.failureCommitOutcome = .ok → chunker text ≠ [] →
      (RAGService.process_book_for_rag chunker world book_id text st).1.success
          = false ∧
        (RAGService.process_book_for_rag chunker world book_id text st).2.book =
          st.book.map fun b =>
            { b with processing_status := "failed",
                     processing_error := some m }) ∧
    (world.persistOutcome = .ok → world.embedResult = false →
      chunker text ≠ [] →
      (RAGService.process_book_for_rag chunker world book_id text st).1.success
          = false ∧
        (RAGService.process_book_for_rag chunker world book_id text st).2.book =
          st.book) ∧
    (∀ m, world.persistOutcome = .ok → world.embedResult = true →
      world.statusCommitOutcome = .err m →
      world.failureCommitOutcome = .ok → chunker text ≠ [] →
      (RAGService.process_book_for_rag chunker world book_id text st).1.success
          = false ∧
        (RAGService.process_book_for_rag chunker world book_id text st).2.book =
          st.book.map fun b =>
            { b with processing_status := "failed",
                     processing_error := some m }) ∧
    ((RAGService.process_book_for_rag chunker world book_id text st).1.success
        = false →
      ((RAGService.process_book_for_rag chunker world book_id text st).2.book.map
          fun b => b.is_embedded) =
        (st.book.map fun b => b.is_embedded)) := by
  refine ⟨?_, ?_, ?_, ?_⟩
  · intro m hp hf hc
    simp only [RAGService.process_book_for_rag]
    rw [if_neg hc]
    simp only [hp, ragFailPath, hf]
    constructor <;> trivial
  · intro hp he hc
    simp only [RAGService.process_book_for_rag]
    rw [if_neg hc]
    simp only [hp]
    rw [if_pos he]
    constructor <;> trivial
  · intro m hp he hs hf hc
    simp only [RAGService.process_book_for_rag]
    rw [if_neg hc]
    simp only [hp]
    rw [if_neg (by simp [he])]
    simp only [hs, ragFailPath, hf]
    constructor <;> trivial
  · intro hfail
    by_cases hc : chunker text = []
    · simp only [RAGService.process_book_for_rag] at hfail ⊢
      rw [if_pos hc] at hfail ⊢
    · simp only [RAGService.process_book_for_rag] at hfail ⊢
      rw [if_neg hc] at hfail ⊢
      cases hp : world.persistOutcome with
      | err m =>
        simp only [hp, ragFailPath] at hfail ⊢
        cases hf : world.failureCommitOutcome with
        | ok =>
          simp only [hf]
          cases st.book with
          | none => rfl
          | some b => rfl
        | err m2 => simp only [hf]
      | ok =>
        simp only [hp] at hfail ⊢
        by_cases he : world.embedResult = false
        · rw [if_pos he] at hfail ⊢
        · rw [if_neg he] at hfail ⊢
          cases hs : world.statusCommitOutcome with
          | err m =>
            simp only [hs, ragFailPath] at hfail ⊢
            cases hf : world.failureCommitOutcome with
            | ok =>
              simp only [hf]
              cases st.book with
              | none => rfl
              | some b => rfl
            | err m2 => simp only [hf]
          | ok =>
            simp only [hs] at hfail
            simp at hfail

/-- C1 witness: each amended branch evaluated on concrete collaborator
schedules. -/
theorem rag_process_failure_paths_witness :
    ((RAGService.process_book_for_rag chunker0
        { persistOutcome := .err "db down" } 1 "Some text." stC1).1.success
        = false ∧
      (RAGService.process_book_for_rag chunker0
        { persistOutcome := .err "db down" } 1 "Some text." stC1).2.book =
        stC1.book.map fun b =>
          { b with processing_status := "failed",
                   processing_error := some "db down" }) ∧
    ((RAGService.process_book_for_rag chunker0 { embedResult := false } 1
        "Some text." stC1).1.success = false ∧
      (RAGService.process_book_for_rag chunker0 { embedResult := false } 1
        "Some text." stC1).2.book = stC1.book) ∧
    ((RAGService.process_book_for_rag chunker0
        { statusCommitOutcome := .err "commit failed" } 1 "Some text."
        stC1).1.success = false ∧
      (RAGService.process_book_for_rag chunker0
        { statusCommitOutcome := .err "commit failed" } 1 "Some text."
        stC1).2.book =
        stC1.book.map fun b =>
          { b with processing_status := "failed",
                   processing_error := some "commit failed" }) ∧
    ((RAGService.process_book_for_rag chunker0 { embedResult := false } 1
        "Some text." stC1).2.book.map fun b => b.is_embedded) =
      (stC1.book.map fun b => b.is_embedded) :=
  ⟨(rag_process_failure_paths chunker0 { persistOutcome := .err "db down" } 1
      "Some text." stC1).1 "db down" rfl rfl (by decide),
   (rag_process_failure_paths chunker0 { embedResult := false } 1
      "Some text." stC1).2.1 rfl rfl (by decide),
   (rag_process_failure_paths chunker0
      { statusCommitOutcome := .err "commit failed" } 1 "Some text."
      stC1).2.2.1 "commit failed" rfl rfl rfl rfl (by decide),
   (rag_process_failure_paths chunker0 { embedResult := false } 1
      "Some text." stC1).2.2.2 (by decide)⟩

/-! ### C2 -/

/-- C2: after a first processing call through the rag-process endpoint
succeeds, a second call with the same book id short-circuits on the
is_embedded flag: it returns success with the chunk count and embedding
model recorded by the first run, and leaves the storage state untouched (no
new chunk rows, no new vectors).  The is_embedded check lives in the router
handler process_book_for_rag (routers/books.py), which wraps
RAGService.process_book_for_rag. -/
theorem router_second_call_short_circuits
    (chunker : String → List TextChunk) (world1 world2 : RAGWorld)
    (book_id : Nat) (st st1 : DBState) (b : BookRow) (res1 : RAGResult)
    (hb : st.book = some b) (hemb : b.is_embedded = false)
    (h1 : routerProcessBookForRag chunker world1 book_id st =
      (.payload res1, st1))
    (hs : res1.success = true) :
    routerProcessBookForRag chunker world2 book_id st1 =
      (.payload
        { success := true
          message := some "Book already processed for RAG"
          chunk_count := some (chunker b.cleaned_text).length
          embedding_model := some world1.modelName }, st1) ∧
    st1.book = some
      { b with
        is_embedded := true
        embedding_model := some world1.modelName
        chunk_count := (chunker b.cleaned_text).length
        processing_status := "completed" } := by
  simp only [routerProcessBookForRag, hb] at h1
  by_cases hct : b.cleaned_text = ""
  · rw [if_pos hct] at h1
    simp at h1
  · rw [if_neg hct] at h1
    rw [if_neg (by simp [hemb])] at h1
    by_cases hc : chunker b.cleaned_text = []
    · simp only [RAGService.process_book_for_rag] at h1
      rw [if_pos hc] at h1
      simp only [Prod.mk.injEq, RouterResult.payload.injEq] at h1
      rw [← h1.1] at hs
      simp at hs
    · simp only [RAGService.process_book_for_rag] at h1
      rw [if_neg hc] at h1
      cases hp : world1.persistOutcome with
      | err m =>
        simp only [hp, ragFailPath] at h1
        simp only [Prod.mk.injEq, RouterResult.payload.injEq] at h1
        rw [← h1.1] at hs
        simp at hs
      | ok =>
        simp only [hp] at h1
        by_cases hem : world1.embedResult = false
        · rw [if_pos hem] at h1
          simp only [Prod.mk.injEq, RouterResult.payload.injEq] at h1
          rw [← h1.1] at hs
          simp at hs
        · rw [if_neg hem] at h1
          cases hso : world1.statusCommitOutcome with
          | err m =>
            simp only [hso, ragFailPath] at h1
            simp only [Prod.mk.injEq, RouterResult.payload.injEq] at h1
            rw [← h1.1] at hs
            simp at hs
          | ok =>
            simp only [hso] at h1
            simp only [Prod.mk.injEq, RouterResult.payload.injEq] at h1
            obtain ⟨_, hst⟩ := h1
            constructor
            · rw [← hst]
              simp only [routerProcessBookForRag, hb, Option.map_some']
              rw [if_neg hct]
              rfl
            · rw [← hst]
              simp [hb]

/-- C2 witness: a concrete first call succeeds and the concrete second call
returns the stored chunk count and model with the state unchanged. -/
theorem router_second_call_short_circuits_witness :
    routerProcessBookForRag chunker0 worldOK 1 stAfter =
      (.payload
        { success := true
          message := some "Book already processed for RAG"
          chunk_count := some (chunker0 bookC1.cleaned_text).length
          embedding_model := some worldOK.modelName }, stAfter) ∧
    stAfter.book = some
      { bookC1 with
        is_embedded := true
        embedding_model := some worldOK.modelName
        chunk_count := (chunker0 bookC1.cleaned_text).length
        processing_status := "completed" } :=
  router_second_call_short_circuits chunker0 worldOK worldOK 1 stC1 stAfter
    bookC1
    { success := true, chunk_count := some 1,
      embedding_model := some worldOK.modelName, total_tokens := some 2,
      chapters_detected := some 0 }
    rfl rfl (by decide) rfl

end Chaptr
